import Mathlib

/-!
Shallow embedding of `src/html-template-language-service.ts` from the
typescript-lit-html-plugin repository: a bridge that delegates completions,
hover and formatting requests for HTML embedded in tagged template strings
to an external HTML language service, translating results into the host
TypeScript language-service shapes.

JS strings are modelled as Lean `String` (offsets as `Int`, matching JS
numbers), `undefined`-able fields as `Option`, and the delegated HTML
service as abstract function parameters.  Stateful parts (the single-slot
completions cache, the number of delegated-service invocations) are modelled
by explicit state passing.
-/

namespace HtmlTemplate

/-- Model of `ts.LineAndCharacter`. -/
structure LineAndCharacter where
  line : Int
  character : Int
deriving DecidableEq, Repr

/-- Model of `vscode.Range`: a start and end position. -/
structure Range where
  start : LineAndCharacter
  «end» : LineAndCharacter
deriving DecidableEq, Repr

/-- Model of `ts.TextSpan`. -/
structure TextSpan where
  start : Int
  length : Int
deriving DecidableEq, Repr

/-- Model of `vscode.TextEdit`: an edit produced by the delegated formatter. -/
structure TextEdit where
  range : Range
  newText : String
deriving DecidableEq, Repr

/-- Model of `ts.TextChange`: an edit in the host's shape. -/
structure TextChange where
  span : TextSpan
  newText : String
deriving DecidableEq, Repr

/-- Model of `vscode.CompletionItemKind`: the full enumeration from
vscode-languageserver-types (values 1..18). -/
inductive CompletionItemKind where
  | text
  | method
  | function
  | «constructor»
  | field
  | variable
  | «class»
  | interface
  | module
  | property
  | unit
  | value
  | enum
  | keyword
  | snippet
  | color
  | file
  | reference
deriving DecidableEq, Repr

/-- Model of `ts.ScriptElementKind`: only the members this module mentions. -/
inductive ScriptElementKind where
  | unknown
  | memberFunctionElement
  | functionElement
  | constructorImplementationElement
  | variableElement
  | classElement
  | interfaceElement
  | moduleElement
  | memberVariableElement
  | constElement
  | enumElement
  | keyword
  | alias
deriving DecidableEq, Repr

/-- Model of `vscode.CompletionItem`, restricted to the fields this module reads.
`kind`, `detail` and `documentation` are optional in the protocol. -/
structure CompletionItem where
  label : String
  kind : Option CompletionItemKind
  detail : Option String
  documentation : Option String
deriving DecidableEq, Repr

/-- Model of `vscode.CompletionList`. -/
structure CompletionList where
  isIncomplete : Bool
  items : List CompletionItem
deriving DecidableEq, Repr

/-- Model of `ts.SymbolDisplayPart`. -/
structure SymbolDisplayPart where
  text : String
  kind : String
deriving DecidableEq, Repr

/-- Model of `ts.CompletionEntry`, restricted to the fields this module writes. -/
structure CompletionEntry where
  name : String
  kindModifiers : String
  kind : ScriptElementKind
  sortText : String
deriving DecidableEq, Repr

/-- Model of `ts.CompletionEntryDetails`, restricted to the fields this module
writes (`tags` is always the empty list here and is omitted). -/
structure CompletionEntryDetails where
  name : String
  kindModifiers : String
  kind : ScriptElementKind
  displayParts : List SymbolDisplayPart
  documentation : List SymbolDisplayPart
deriving DecidableEq, Repr

/-- Model of `ts.CompletionInfo`, restricted to the fields this module writes. -/
structure CompletionInfo where
  isGlobalCompletion : Bool
  isMemberCompletion : Bool
  isNewIdentifierLocation : Bool
  entries : List CompletionEntry
deriving DecidableEq, Repr

/-- Model of `TemplateContext` from typescript-template-language-service-decorator:
the embedded template's file name, raw text, and the two injected
offset/position conversion functions. -/
structure TemplateContext where
  fileName : String
  text : String
  toPosition : Int → LineAndCharacter
  toOffset : LineAndCharacter → Int

/-- Source `arePositionsEqual` (lines 13-18). -/
def arePositionsEqual (left right : LineAndCharacter) : Bool :=
  left.line == right.line && left.character == right.character

/-- State of the source class `CompletionsCache` (lines 20-51): all four
private fields start out `undefined`. -/
structure CompletionsCache where
  cachedCompletionsFile : Option String
  cachedCompletionsPosition : Option LineAndCharacter
  cachedCompletionsContent : Option String
  completions : Option CompletionList

/-- The freshly constructed cache: every field `undefined`. -/
def CompletionsCache.empty : CompletionsCache :=
  ⟨none, none, none, none⟩

/-- Source `CompletionsCache.getCached` (lines 26-39): returns the stored
list only when a stored list exists, the file name matches, a stored
position exists and equals the requested one, and the text matches. -/
def CompletionsCache.getCached (cache : CompletionsCache)
    (context : TemplateContext) (position : LineAndCharacter) :
    Option CompletionList :=
  match cache.completions with
  | none => none
  | some completions =>
    match cache.cachedCompletionsPosition with
    | none => none
    | some cachedPos =>
      if cache.cachedCompletionsFile = some context.fileName
          ∧ arePositionsEqual position cachedPos = true
          ∧ cache.cachedCompletionsContent = some context.text
      then some completions
      else none

/-- Source `CompletionsCache.updateCached` (lines 41-50): unconditionally
overwrites all four fields. -/
def CompletionsCache.updateCached (cache : CompletionsCache)
    (context : TemplateContext) (position : LineAndCharacter)
    (completions : CompletionList) : CompletionsCache :=
  let _ := cache
  { cachedCompletionsFile := some context.fileName
    cachedCompletionsPosition := some position
    cachedCompletionsContent := some context.text
    completions := some completions }

/-- Source `translateionCompletionItemKind` (lines 291-331), transcribed
switch case by switch case (the name's spelling is the source's). -/
def translateionCompletionItemKind (kind : CompletionItemKind) :
    ScriptElementKind :=
  match kind with
  | .method => .memberFunctionElement
  | .function => .functionElement
  | .«constructor» => .constructorImplementationElement
  | .field => .variableElement
  | .variable => .variableElement
  | .«class» => .classElement
  | .interface => .interfaceElement
  | .module => .moduleElement
  | .property => .memberVariableElement
  | .unit => .constElement
  | .value => .constElement
  | .enum => .enumElement
  | .keyword => .keyword
  | .color => .constElement
  | .reference => .alias
  | .file => .moduleElement
  | .snippet => .unknown
  | .text => .unknown

/-- Source `toDisplayParts` (lines 333-337).  The JS condition `text ?` is
falsy exactly for `undefined` and the empty string. -/
def toDisplayParts (text : Option String) : List SymbolDisplayPart :=
  match text with
  | some t => if t = "" then [] else [{ text := t, kind := "text" }]
  | none => []

/-- Source `translateCompletionItemsToCompletionEntryDetails`
(lines 265-277).  `item.kind ?` is falsy exactly for `undefined`, since
every `CompletionItemKind` enum value is at least 1. -/
def translateCompletionItemsToCompletionEntryDetails
    (item : CompletionItem) : CompletionEntryDetails :=
  { name := item.label
    kindModifiers := "declare"
    kind := match item.kind with
            | some k => translateionCompletionItemKind k
            | none => .unknown
    displayParts := toDisplayParts item.detail
    documentation := toDisplayParts item.documentation }

/-- Source `translateCompetionEntry` (lines 279-289; the name's spelling is
the source's). -/
def translateCompetionEntry (item : CompletionItem) : CompletionEntry :=
  { name := item.label
    kindModifiers := ""
    kind := match item.kind with
            | some k => translateionCompletionItemKind k
            | none => .unknown
    sortText := "0" }

/-- Source `translateCompletionItemsToCompletionInfo` (lines 253-263). -/
def translateCompletionItemsToCompletionInfo (items : CompletionList) :
    CompletionInfo :=
  { isGlobalCompletion := false
    isMemberCompletion := false
    isNewIdentifierLocation := false
    entries := items.items.map translateCompetionEntry }

/-- The delegated HTML language service, abstracted to the one call the
completions path makes.  `doComplete` receives the virtual document (fully
determined by the `TemplateContext` it is built from) and the position;
the service is deterministic, so it is a pure function.  An invocation
counter is threaded explicitly to record each delegated call. -/
def doCompleteCall (doComplete : TemplateContext → LineAndCharacter → CompletionList)
    (calls : Nat) (context : TemplateContext) (position : LineAndCharacter) :
    CompletionList × Nat :=
  (doComplete context position, calls + 1)

/-- Source `getCompletionItems` (lines 206-220): consult the cache; on a
miss, invoke `doComplete`, store its result, then invoke `doComplete` a
second time and return that second result (the source returns a fresh
`doComplete` call rather than the stored `completions` variable).
Returns (result, cache after the request, delegated calls after the
request). -/
def getCompletionItems
    (doComplete : TemplateContext → LineAndCharacter → CompletionList)
    (cache : CompletionsCache) (context : TemplateContext)
    (position : LineAndCharacter) (calls : Nat) :
    CompletionList × CompletionsCache × Nat :=
  match cache.getCached context position with
  | some cached => (cached, cache, calls)
  | none =>
    let first := doCompleteCall doComplete calls context position
    let completions := first.1
    let cache := cache.updateCached context position completions
    let second := doCompleteCall doComplete first.2 context position
    (second.1, cache, second.2)

/-- Source `getCompletionsAtPosition` (lines 70-76). -/
def getCompletionsAtPosition
    (doComplete : TemplateContext → LineAndCharacter → CompletionList)
    (cache : CompletionsCache) (context : TemplateContext)
    (position : LineAndCharacter) (calls : Nat) :
    CompletionInfo × CompletionsCache × Nat :=
  let items := getCompletionItems doComplete cache context position calls
  (translateCompletionItemsToCompletionInfo items.1, items.2.1, items.2.2)

/-- Source `getCompletionEntryDetails` (lines 78-96): re-resolve the items
(respecting the cache), find the item labelled `name`; when absent, return
the minimal unknown-kind record. -/
def getCompletionEntryDetails
    (doComplete : TemplateContext → LineAndCharacter → CompletionList)
    (cache : CompletionsCache) (context : TemplateContext)
    (position : LineAndCharacter) (name : String) (calls : Nat) :
    CompletionEntryDetails × CompletionsCache × Nat :=
  let resolved := getCompletionItems doComplete cache context position calls
  let items := resolved.1.items
  match items.find? (fun x => x.label == name) with
  | none =>
    ({ name := name
       kind := .unknown
       kindModifiers := ""
       displayParts := toDisplayParts (some name)
       documentation := [] }, resolved.2.1, resolved.2.2)
  | some item =>
    (translateCompletionItemsToCompletionEntryDetails item,
     resolved.2.1, resolved.2.2)

/-- JS `text.split(/n/g)` for the single-character pattern `n`: split the
character list at every occurrence of `sep`.  `[]` splits to `[[]]`, as
`"".split` yields `[""]` in JS. -/
def jsSplitOnChar (sep : Char) : List Char → List (List Char)
  | [] => [[]]
  | c :: rest =>
    match jsSplitOnChar sep rest with
    | [] => [[]]
    | s :: ss => if c = sep then [] :: s :: ss else (c :: s) :: ss

/-- Model of `vscode.TextDocument` as built by this module. -/
structure VirtualDocument where
  uri : String
  languageId : String
  version : Nat
  getText : Unit → String
  positionAt : Int → LineAndCharacter
  offsetAt : LineAndCharacter → Int
  lineCount : Nat

/-- Source `createVirtualDocument` (lines 187-204).  `lineCount` is
`contents.split(/n/g).length + 1`: the regex `/n/g` matches the literal
letter `n`, not the newline escape `\n`. -/
def createVirtualDocument (context : TemplateContext) : VirtualDocument :=
  let contents := context.text
  { uri := "untitled://embedded.html"
    languageId := "html"
    version := 1
    getText := fun _ => contents
    positionAt := fun offset => context.toPosition offset
    offsetAt := fun p => context.toOffset p
    lineCount := (jsSplitOnChar 'n' contents.toList).length + 1 }

/-- Source `toVsRange` (lines 164-173). -/
def toVsRange (context : TemplateContext) (start «end» : Int) : Range :=
  { start := context.toPosition start
    «end» := context.toPosition «end» }

/-- Source `toTsSpan` (lines 175-185). -/
def toTsSpan (context : TemplateContext) (range : Range) : TextSpan :=
  let editStart := context.toOffset range.start
  let editEnd := context.toOffset range.«end»
  { start := editStart, length := editEnd - editStart }

/-- The characters matched by the JS regex class `\s` (ASCII part plus
no-break space; the claims only exercise spaces, tabs and newlines). -/
def isJsWhitespace (c : Char) : Bool :=
  c = ' ' || c = '\t' || c = '\n' || c = '\r' ||
  c = '\x0b' || c = '\x0c' || c = '\u00a0'

/-- JS `text.match(/^\s*\n/)` match length: the greedy-with-backtracking
match of whitespace then a newline, anchored at the start, i.e. the longest
prefix consisting of whitespace whose final character is `\n`.  `none`
when no such prefix exists. -/
def leadingWsNewlineLen : List Char → Option Nat
  | [] => none
  | c :: rest =>
    if isJsWhitespace c then
      match leadingWsNewlineLen rest with
      | some n => some (n + 1)
      | none => if c = '\n' then some 1 else none
    else none

/-- JS `text.match(/\n\s*$/)` match length: the regex engine takes the
leftmost `\n` that is followed only by whitespace up to the end of the
text, so the match is the longest suffix that starts with `\n` and is all
whitespace.  `none` when no such suffix exists. -/
def trailingNewlineWsLen : List Char → Option Nat
  | [] => none
  | c :: rest =>
    if c = '\n' && rest.all isJsWhitespace then some (rest.length + 1)
    else trailingNewlineWsLen rest

/-- The start offset after the leading adjustment at source lines 124-128
(`start += leading[0].length` when the leading regex matches). -/
def adjustedStart (context : TemplateContext) (start : Int) : Int :=
  match leadingWsNewlineLen context.text.toList with
  | some n => start + n
  | none => start

/-- The end offset after the trailing adjustment at source lines 130-134
(`end -= trailing[0].length` when the trailing regex matches). -/
def adjustedEnd (context : TemplateContext) («end» : Int) : Int :=
  match trailingNewlineWsLen context.text.toList with
  | some n => «end» - n
  | none => «end»

/-- Model of `ts.EditorSettings`, restricted to the two fields this module reads;
both are optional on the TypeScript side. -/
structure EditorSettings where
  tabSize : Option Int
  convertTabsToSpaces : Option Bool

/-- The options record passed to the delegated `format` call
(source lines 141-154). -/
structure HtmlFormatOptions where
  tabSize : Option Int
  insertSpaces : Bool
  wrapLineLength : Int
  unformatted : String
  contentUnformatted : String
  indentInnerHtml : Bool
  preserveNewLines : Bool
  maxPreserveNewLines : Option Int
  indentHandlebars : Bool
  endWithNewline : Bool
  extraLiners : String
  wrapAttributes : String

/-- The fixed style configuration handed to the delegated `format` call
(source lines 141-154): only `tabSize` and `insertSpaces` come from the
editor settings (`insertSpaces` is `!!settings.convertTabsToSpaces`). -/
def htmlFormatOptions (settings : EditorSettings) : HtmlFormatOptions :=
  { tabSize := settings.tabSize
    insertSpaces := settings.convertTabsToSpaces.getD false
    wrapLineLength := 120
    unformatted := ""
    contentUnformatted := "pre,code,textarea"
    indentInnerHtml := false
    preserveNewLines := true
    maxPreserveNewLines := none
    indentHandlebars := false
    endWithNewline := false
    extraLiners := "head, body, /html"
    wrapAttributes := "auto" }

/-- Source `getFormattingEditsForRange` (lines 111-162).  The delegated
formatter is abstracted as a function of the context (which determines the
virtual document), the range and the options; the second component of the
result counts how many times it was invoked during the request. -/
def getFormattingEditsForRange
    (formatEnabled : Bool)
    (format : TemplateContext → Range → HtmlFormatOptions → List TextEdit)
    (context : TemplateContext) (start «end» : Int)
    (settings : EditorSettings) : List TextChange × Nat :=
  if !formatEnabled then ([], 0)
  else
    let start := adjustedStart context start
    let «end» := adjustedEnd context «end»
    if «end» ≤ start then ([], 0)
    else
      let range := toVsRange context start «end»
      let edits := format context range (htmlFormatOptions settings)
      (edits.map (fun vsedit =>
        { span := toTsSpan context vsedit.range
          newText := vsedit.newText }), 1)

/-- Model of `vscode.Hover.contents`: a marked string, a markup-content value, or a
(possibly nested) array of such parts. -/
inductive HoverContents where
  | plain : String → HoverContents
  | markup : String → HoverContents
  | many : List HoverContents → HoverContents

/-- Model of `vscode.Hover`, restricted to the fields this module reads. -/
structure Hover where
  contents : HoverContents
  range : Option Range

mutual

/-- The inner `convertPart` closure of `translateHover` (lines 228-236):
flatten the hover contents, in document order, into display parts tagged
`unknown`. -/
def convertPart : HoverContents → List SymbolDisplayPart
  | .plain s => [{ kind := "unknown", text := s }]
  | .markup v => [{ kind := "unknown", text := v }]
  | .many xs => convertPartList xs

/-- Model of `hoverContents.forEach(convertPart)` over an array of parts. -/
def convertPartList : List HoverContents → List SymbolDisplayPart
  | [] => []
  | x :: xs => convertPart x ++ convertPartList xs

end

/-- Model of `ts.QuickInfo`, restricted to the fields this module writes. -/
structure QuickInfo where
  kind : ScriptElementKind
  kindModifiers : String
  textSpan : TextSpan
  displayParts : List SymbolDisplayPart
  documentation : List SymbolDisplayPart

/-- Source `translateHover` (lines 222-250). -/
def translateHover (hover : Hover) (position : LineAndCharacter)
    (context : TemplateContext) : QuickInfo :=
  let contents := convertPart hover.contents
  let start := context.toOffset
    (match hover.range with
     | some r => r.start
     | none => position)
  { kind := .unknown
    kindModifiers := ""
    textSpan :=
      { start := start
        length := match hover.range with
                  | some r => context.toOffset r.«end» - start
                  | none => 1 }
    displayParts := []
    documentation := contents }

/-- Source `getQuickInfoAtPosition` (lines 98-109): the delegated
`doHover` is abstracted as a function of the context (which determines the
virtual document and its parse) and the position. -/
def getQuickInfoAtPosition
    (doHover : TemplateContext → LineAndCharacter → Option Hover)
    (context : TemplateContext) (position : LineAndCharacter) :
    Option QuickInfo :=
  match doHover context position with
  | some hover => some (translateHover hover position context)
  | none => none

/-! ## Concrete instances used to exercise the theorems -/

/-- A concrete delegated completion service: one item labelled with the
requesting file's name. -/
def wDoComplete : TemplateContext → LineAndCharacter → CompletionList :=
  fun context _ => ⟨false, [⟨context.fileName, none, none, none⟩]⟩

/-- A concrete template context. -/
def wCtx : TemplateContext := ⟨"main.ts", "<", fun _ => ⟨0, 0⟩, fun _ => 0⟩

/-- Variant of `wCtx` with only the file name changed. -/
def wCtxF : TemplateContext := ⟨"other.ts", "<", fun _ => ⟨0, 0⟩, fun _ => 0⟩

/-- Variant of `wCtx` with only the text changed. -/
def wCtxT : TemplateContext := ⟨"main.ts", "<p", fun _ => ⟨0, 0⟩, fun _ => 0⟩

/-- The completion list `wDoComplete` produces for `wCtx`. -/
def wRes : CompletionList := ⟨false, [⟨"main.ts", none, none, none⟩]⟩

/-- The cache state after a first (miss) request for `wCtx` at (0,0). -/
def wCache1 : CompletionsCache :=
  ⟨some "main.ts", some ⟨0, 0⟩, some "<", some wRes⟩

/-- A concrete delegated formatter: one edit replacing the requested range
with the empty string. -/
def wFormat : TemplateContext → Range → HtmlFormatOptions → List TextEdit :=
  fun _ range _ => [⟨range, ""⟩]

/-- Concrete editor settings. -/
def wSettings : EditorSettings := ⟨some 4, some true⟩

/-- A concrete template context whose text starts with a newline, on a
single line of the host document (offset = character). -/
def wCtxNl : TemplateContext :=
  ⟨"main.ts", "\n<p>x</p>", fun o => ⟨0, o⟩, fun p => p.character⟩

/-! ## Helper lemmas -/

theorem arePositionsEqual_iff (p q : LineAndCharacter) :
    arePositionsEqual p q = true ↔ p.line = q.line ∧ p.character = q.character := by
  simp [arePositionsEqual]

theorem arePositionsEqual_iff_eq (p q : LineAndCharacter) :
    arePositionsEqual p q = true ↔ p = q := by
  rw [arePositionsEqual_iff]
  cases p; cases q; simp_all

theorem getCached_eq_some_iff (cache : CompletionsCache)
    (context : TemplateContext) (position : LineAndCharacter)
    (r : CompletionList) :
    cache.getCached context position = some r ↔
      cache.completions = some r ∧
      cache.cachedCompletionsFile = some context.fileName ∧
      cache.cachedCompletionsPosition = some position ∧
      cache.cachedCompletionsContent = some context.text := by
  obtain ⟨f, p, t, c⟩ := cache
  cases c <;> cases p <;>
    simp only [CompletionsCache.getCached] <;> try simp
  rename_i cp cl
  constructor
  · rintro ⟨⟨h1, h2, h3⟩, h4⟩
    rw [arePositionsEqual_iff_eq] at h2
    exact ⟨h4, h1, h2.symm, h3⟩
  · rintro ⟨rfl, h1, rfl, h5⟩
    exact ⟨⟨h1, (arePositionsEqual_iff_eq _ _).2 rfl, h5⟩, rfl⟩

theorem getCached_updateCached_self (cache : CompletionsCache)
    (context : TemplateContext) (position : LineAndCharacter)
    (completions : CompletionList) :
    (cache.updateCached context position completions).getCached context position =
      some completions := by
  rw [getCached_eq_some_iff]
  simp [CompletionsCache.updateCached]

/-- After any `getCompletionItems` request, the resulting cache holds the
request's key and stores exactly the returned list. -/
theorem getCompletionItems_key
    (doComplete : TemplateContext → LineAndCharacter → CompletionList)
    (cache : CompletionsCache) (context : TemplateContext)
    (position : LineAndCharacter) (calls : Nat) :
    (getCompletionItems doComplete cache context position calls).2.1.getCached
        context position =
      some (getCompletionItems doComplete cache context position calls).1 := by
  unfold getCompletionItems
  cases h : cache.getCached context position with
  | some cached => simpa using h
  | none =>
    simp only [doCompleteCall]
    exact getCached_updateCached_self _ _ _ _

/-- A cache whose stored key is `(context, position)` misses for any
request whose file name, position or text differs. -/
theorem getCached_none_of_changed_key (cache : CompletionsCache)
    (context context' : TemplateContext) (position position' : LineAndCharacter)
    (k2 : cache.cachedCompletionsFile = some context.fileName)
    (k3 : cache.cachedCompletionsPosition = some position)
    (k4 : cache.cachedCompletionsContent = some context.text)
    (hne : context'.fileName ≠ context.fileName ∨ context'.text ≠ context.text ∨
      position' ≠ position) :
    cache.getCached context' position' = none := by
  cases hg : cache.getCached context' position' with
  | none => rfl
  | some r =>
    exfalso
    rw [getCached_eq_some_iff] at hg
    obtain ⟨_, h2, h3, h4⟩ := hg
    rcases hne with h | h | h
    · rw [h2] at k2; exact h (Option.some.inj k2)
    · rw [h4] at k4; exact h (Option.some.inj k4)
    · rw [h3] at k3; exact h (Option.some.inj k3)

/-- When the leading regex does not match, the text has no whitespace
prefix ending in a newline. -/
theorem leadingWsNewlineLen_none (l : List Char) :
    leadingWsNewlineLen l = none →
    ∀ ws suf, l = ws ++ '\n' :: suf → ws.all isJsWhitespace = true → False := by
  induction l with
  | nil =>
    intro _ ws suf heq _
    simp at heq
  | cons c rest ih =>
    intro h ws suf heq hws
    simp only [leadingWsNewlineLen] at h
    by_cases hw : isJsWhitespace c = true
    · rw [if_pos hw] at h
      cases hr : leadingWsNewlineLen rest with
      | some m => rw [hr] at h; cases h
      | none =>
        rw [hr] at h
        have hc : c ≠ '\n' := by
          intro hc
          rw [if_pos hc] at h
          cases h
        cases ws with
        | nil =>
          simp at heq
          exact hc heq.1
        | cons w ws' =>
          simp only [List.cons_append, List.cons.injEq] at heq
          simp only [List.all_cons, Bool.and_eq_true] at hws
          exact ih hr ws' suf heq.2 hws.2
    · cases ws with
      | nil =>
        simp at heq
        exact hw (heq.1 ▸ by decide)
      | cons w ws' =>
        simp only [List.cons_append, List.cons.injEq] at heq
        simp only [List.all_cons, Bool.and_eq_true] at hws
        exact hw (heq.1 ▸ hws.1)

/-- When the leading regex matches with length `n`, the text starts with a
whitespace prefix of length `n` whose final character is a newline. -/
theorem leadingWsNewlineLen_some (l : List Char) (n : Nat) :
    leadingWsNewlineLen l = some n →
    ∃ ws suf, l = ws ++ '\n' :: suf ∧ ws.all isJsWhitespace = true ∧
      n = ws.length + 1 := by
  induction l generalizing n with
  | nil => intro h; cases h
  | cons c rest ih =>
    intro h
    simp only [leadingWsNewlineLen] at h
    by_cases hw : isJsWhitespace c = true
    · rw [if_pos hw] at h
      cases hr : leadingWsNewlineLen rest with
      | some m =>
        rw [hr] at h
        cases h
        obtain ⟨ws, suf, heq, hws, hm⟩ := ih m hr
        exact ⟨c :: ws, suf, by simp [heq], by simp [hw, hws], by simp [hm]⟩
      | none =>
        rw [hr] at h
        by_cases hc : c = '\n'
        · rw [if_pos hc] at h
          cases h
          exact ⟨[], rest, by simp [hc], rfl, rfl⟩
        · rw [if_neg hc] at h
          cases h
    · rw [if_neg hw] at h
      cases h

/-- The leading regex is greedy: its match is the longest whitespace
prefix ending in a newline. -/
theorem leadingWsNewlineLen_max (l : List Char) (n : Nat) :
    leadingWsNewlineLen l = some n →
    ∀ ws suf, l = ws ++ '\n' :: suf → ws.all isJsWhitespace = true →
      ws.length + 1 ≤ n := by
  induction l generalizing n with
  | nil => intro h; cases h
  | cons c rest ih =>
    intro h ws suf heq hws
    simp only [leadingWsNewlineLen] at h
    by_cases hw : isJsWhitespace c = true
    · rw [if_pos hw] at h
      cases hr : leadingWsNewlineLen rest with
      | some m =>
        rw [hr] at h
        cases h
        cases ws with
        | nil => simp
        | cons w ws' =>
          simp only [List.cons_append, List.cons.injEq] at heq
          simp only [List.all_cons, Bool.and_eq_true] at hws
          have := ih m hr ws' suf heq.2 hws.2
          simp only [List.length_cons]
          omega
      | none =>
        rw [hr] at h
        by_cases hc : c = '\n'
        · rw [if_pos hc] at h
          cases h
          cases ws with
          | nil => simp
          | cons w ws' =>
            simp only [List.cons_append, List.cons.injEq] at heq
            simp only [List.all_cons, Bool.and_eq_true] at hws
            exact (leadingWsNewlineLen_none rest hr ws' suf heq.2 hws.2).elim
        · rw [if_neg hc] at h
          cases h
    · rw [if_neg hw] at h
      cases h

/-- When the trailing regex does not match, the text has no all-whitespace
suffix beginning with a newline. -/
theorem trailingNewlineWsLen_none (l : List Char) :
    trailingNewlineWsLen l = none →
    ∀ pre ws, l = pre ++ '\n' :: ws → ws.all isJsWhitespace = true → False := by
  induction l with
  | nil =>
    intro _ pre ws heq _
    simp at heq
  | cons c rest ih =>
    intro h pre ws heq hws
    simp only [trailingNewlineWsLen] at h
    by_cases hcond : (c = '\n' && rest.all isJsWhitespace) = true
    · rw [if_pos hcond] at h
      cases h
    · rw [if_neg hcond] at h
      cases pre with
      | nil =>
        simp only [List.nil_append, List.cons.injEq] at heq
        exact hcond (by simp [heq.1, heq.2 ▸ hws])
      | cons p pre' =>
        simp only [List.cons_append, List.cons.injEq] at heq
        exact ih h pre' ws heq.2 hws

/-- When the trailing regex matches with length `n`, the text ends with a
suffix of a newline followed by `n - 1` whitespace characters. -/
theorem trailingNewlineWsLen_some (l : List Char) (n : Nat) :
    trailingNewlineWsLen l = some n →
    ∃ pre ws, l = pre ++ '\n' :: ws ∧ ws.all isJsWhitespace = true ∧
      n = ws.length + 1 := by
  induction l generalizing n with
  | nil => intro h; cases h
  | cons c rest ih =>
    intro h
    simp only [trailingNewlineWsLen] at h
    by_cases hcond : (c = '\n' && rest.all isJsWhitespace) = true
    · rw [if_pos hcond] at h
      cases h
      simp only [Bool.and_eq_true, decide_eq_true_eq] at hcond
      exact ⟨[], rest, by simp [hcond.1], hcond.2, rfl⟩
    · rw [if_neg hcond] at h
      obtain ⟨pre, ws, heq, hws, hn⟩ := ih n h
      exact ⟨c :: pre, ws, by simp [heq], hws, hn⟩

/-- The trailing regex match is leftmost: it covers every all-whitespace
suffix beginning with a newline. -/
theorem trailingNewlineWsLen_leftmost (l : List Char) (n : Nat) :
    trailingNewlineWsLen l = some n →
    ∀ pre ws, l = pre ++ '\n' :: ws → ws.all isJsWhitespace = true →
      ws.length + 1 ≤ n := by
  induction l generalizing n with
  | nil => intro h; cases h
  | cons c rest ih =>
    intro h pre ws heq hws
    simp only [trailingNewlineWsLen] at h
    by_cases hcond : (c = '\n' && rest.all isJsWhitespace) = true
    · rw [if_pos hcond] at h
      cases h
      have : (c :: rest).length = pre.length + ws.length + 1 := by
        rw [heq]; simp; omega
      simp only [List.length_cons] at this
      omega
    · rw [if_neg hcond] at h
      cases pre with
      | nil =>
        simp only [List.nil_append, List.cons.injEq] at heq
        exact absurd (by simp [heq.1, heq.2 ▸ hws]) hcond
      | cons p pre' =>
        simp only [List.cons_append, List.cons.injEq] at heq
        exact ih n h pre' ws heq.2 hws

theorem jsSplitOnChar_ne_nil (sep : Char) (l : List Char) :
    jsSplitOnChar sep l ≠ [] := by
  cases l with
  | nil => simp [jsSplitOnChar]
  | cons c rest =>
    simp only [jsSplitOnChar]
    cases jsSplitOnChar sep rest with
    | nil => simp
    | cons s ss =>
      by_cases hc : c = sep
      · simp [hc]
      · simp [hc]

/-- The number of segments produced by splitting on a character is the
number of its occurrences plus one. -/
theorem jsSplitOnChar_length (sep : Char) (l : List Char) :
    (jsSplitOnChar sep l).length = l.count sep + 1 := by
  induction l with
  | nil => rfl
  | cons c rest ih =>
    simp only [jsSplitOnChar]
    cases h : jsSplitOnChar sep rest with
    | nil => exact absurd h (jsSplitOnChar_ne_nil sep rest)
    | cons s ss =>
      rw [h] at ih
      simp only [List.length_cons] at ih
      by_cases hc : c = sep
      · simp [hc, List.count_cons]
        omega
      · simp [hc, List.count_cons]
        omega

/-! ## Claim theorems -/

/-- C1: two consecutive completion requests with identical
(fileName, position, text) — the second returns the same completion result
(deep equality), leaves the cache unchanged, and performs no delegated
`doComplete` invocation; changing exactly one of the three key fields
forces a fresh delegated call (the invocation counter grows, and the
result is freshly recomputed from `doComplete`). -/
theorem completions_cache_correct
    (doComplete : TemplateContext → LineAndCharacter → CompletionList)
    (cache0 : CompletionsCache) (context ctxF ctxT : TemplateContext)
    (position position' : LineAndCharacter) (calls0 : Nat)
    (res1 : CompletionList) (cache1 : CompletionsCache) (calls1 : Nat)
    (h1 : getCompletionItems doComplete cache0 context position calls0 =
      (res1, cache1, calls1))
    (hF : ctxF.fileName ≠ context.fileName) (_hFt : ctxF.text = context.text)
    (hT : ctxT.text ≠ context.text) (_hTf : ctxT.fileName = context.fileName)
    (hP : position' ≠ position) :
    getCompletionItems doComplete cache1 context position calls1 =
      (res1, cache1, calls1) ∧
    (getCompletionItems doComplete cache1 ctxF position calls1).1 =
      doComplete ctxF position ∧
    (getCompletionItems doComplete cache1 ctxF position calls1).2.2 =
      calls1 + 2 ∧
    (getCompletionItems doComplete cache1 ctxT position calls1).1 =
      doComplete ctxT position ∧
    (getCompletionItems doComplete cache1 ctxT position calls1).2.2 =
      calls1 + 2 ∧
    (getCompletionItems doComplete cache1 context position' calls1).1 =
      doComplete context position' ∧
    (getCompletionItems doComplete cache1 context position' calls1).2.2 =
      calls1 + 2 := by
  have hkey : cache1.getCached context position = some res1 := by
    have h := getCompletionItems_key doComplete cache0 context position calls0
    rw [h1] at h
    exact h
  obtain ⟨hs1, hs2, hs3, hs4⟩ := (getCached_eq_some_iff _ _ _ _).1 hkey
  have mF := getCached_none_of_changed_key cache1 context ctxF position position
    hs2 hs3 hs4 (Or.inl hF)
  have mT := getCached_none_of_changed_key cache1 context ctxT position position
    hs2 hs3 hs4 (Or.inr (Or.inl hT))
  have mP := getCached_none_of_changed_key cache1 context context position
    position' hs2 hs3 hs4 (Or.inr (Or.inr hP))
  refine ⟨?_, ?_, ?_, ?_, ?_, ?_, ?_⟩ <;>
    unfold getCompletionItems <;>
    simp [hkey, mF, mT, mP, doCompleteCall]

/-- C2: `getCached` yields the stored list only when the stored file name,
position (by structural equality of line and character) and text all equal
the request's; any mismatch among the three yields a miss (`none`). -/
theorem getCached_characterisation (cache : CompletionsCache)
    (context : TemplateContext) (position : LineAndCharacter) :
    (∀ r, cache.getCached context position = some r →
      cache.completions = some r ∧
      cache.cachedCompletionsFile = some context.fileName ∧
      (∃ p, cache.cachedCompletionsPosition = some p ∧
        p.line = position.line ∧ p.character = position.character) ∧
      cache.cachedCompletionsContent = some context.text) ∧
    ((cache.cachedCompletionsFile ≠ some context.fileName ∨
      (∀ p, cache.cachedCompletionsPosition = some p →
        ¬(p.line = position.line ∧ p.character = position.character)) ∨
      cache.cachedCompletionsContent ≠ some context.text) →
      cache.getCached context position = none) := by
  constructor
  · intro r h
    rw [getCached_eq_some_iff] at h
    obtain ⟨h1, h2, h3, h4⟩ := h
    exact ⟨h1, h2, ⟨position, h3, rfl, rfl⟩, h4⟩
  · intro h
    cases hg : cache.getCached context position with
    | none => rfl
    | some r =>
      exfalso
      rw [getCached_eq_some_iff] at hg
      obtain ⟨h1, h2, h3, h4⟩ := hg
      rcases h with h | h | h
      · exact h h2
      · exact h position h3 ⟨rfl, rfl⟩
      · exact h h4

/-- Witness for C1: a first request from the empty cache for `wCtx` at
(0,0) yields `(wRes, wCache1, 2)`; the theorem then gives the cached second
request and the three single-key-change recomputations concretely. -/
theorem completions_cache_correct_witness :
    getCompletionItems wDoComplete wCache1 wCtx ⟨0, 0⟩ 2 = (wRes, wCache1, 2) ∧
    (getCompletionItems wDoComplete wCache1 wCtxF ⟨0, 0⟩ 2).1 =
      wDoComplete wCtxF ⟨0, 0⟩ ∧
    (getCompletionItems wDoComplete wCache1 wCtxF ⟨0, 0⟩ 2).2.2 = 2 + 2 ∧
    (getCompletionItems wDoComplete wCache1 wCtxT ⟨0, 0⟩ 2).1 =
      wDoComplete wCtxT ⟨0, 0⟩ ∧
    (getCompletionItems wDoComplete wCache1 wCtxT ⟨0, 0⟩ 2).2.2 = 2 + 2 ∧
    (getCompletionItems wDoComplete wCache1 wCtx ⟨0, 1⟩ 2).1 =
      wDoComplete wCtx ⟨0, 1⟩ ∧
    (getCompletionItems wDoComplete wCache1 wCtx ⟨0, 1⟩ 2).2.2 = 2 + 2 :=
  completions_cache_correct wDoComplete CompletionsCache.empty wCtx wCtxF wCtxT
    ⟨0, 0⟩ ⟨0, 1⟩ 0 wRes wCache1 2 rfl
    (by decide) rfl (by decide) rfl (by decide)

/-- Witness for C2: the cache that stores key ("main.ts", (0,0), "<") hits
for the matching request, revealing its stored key, and misses for a
request from a file named "other.ts". -/
theorem getCached_characterisation_witness :
    (wCache1.completions = some wRes ∧
     wCache1.cachedCompletionsFile = some wCtx.fileName ∧
     (∃ p, wCache1.cachedCompletionsPosition = some p ∧
       p.line = (0 : Int) ∧ p.character = (0 : Int)) ∧
     wCache1.cachedCompletionsContent = some wCtx.text) ∧
    wCache1.getCached wCtxF ⟨0, 0⟩ = none :=
  ⟨(getCached_characterisation wCache1 wCtx ⟨0, 0⟩).1 wRes (by decide),
   (getCached_characterisation wCache1 wCtxF ⟨0, 0⟩).2 (Or.inl (by decide))⟩

/-- C3: the completion-item-kind to script-element-kind table is exactly
the documented finite table, and every kind outside the table (snippet and
plain text) maps to the unknown default. -/
theorem kind_mapping_table :
    (translateionCompletionItemKind .method = .memberFunctionElement ∧
     translateionCompletionItemKind .function = .functionElement ∧
     translateionCompletionItemKind .«constructor» =
       .constructorImplementationElement ∧
     translateionCompletionItemKind .field = .variableElement ∧
     translateionCompletionItemKind .variable = .variableElement ∧
     translateionCompletionItemKind .«class» = .classElement ∧
     translateionCompletionItemKind .interface = .interfaceElement ∧
     translateionCompletionItemKind .module = .moduleElement ∧
     translateionCompletionItemKind .property = .memberVariableElement ∧
     translateionCompletionItemKind .unit = .constElement ∧
     translateionCompletionItemKind .value = .constElement ∧
     translateionCompletionItemKind .enum = .enumElement ∧
     translateionCompletionItemKind .keyword = .keyword ∧
     translateionCompletionItemKind .color = .constElement ∧
     translateionCompletionItemKind .reference = .alias ∧
     translateionCompletionItemKind .file = .moduleElement) ∧
    (∀ k : CompletionItemKind,
      k ∉ ([.method, .function, .«constructor», .field, .variable, .«class»,
            .interface, .module, .property, .unit, .value, .enum, .keyword,
            .color, .reference, .file] : List CompletionItemKind) →
      translateionCompletionItemKind k = .unknown) := by
  refine ⟨by decide, ?_⟩
  intro k hk
  cases k <;> simp [List.mem_cons] at hk <;> rfl

/-- Witness for C3: snippet and plain text are outside the table and map
to the unknown default. -/
theorem kind_mapping_table_witness :
    translateionCompletionItemKind .snippet = .unknown ∧
    translateionCompletionItemKind .text = .unknown :=
  ⟨kind_mapping_table.2 .snippet (by decide),
   kind_mapping_table.2 .text (by decide)⟩

/-- C9: translating plain text to display parts is total — a non-empty
string becomes a single part tagged as text, and an absent or empty string
becomes the empty sequence. -/
theorem toDisplayParts_total (s : String) (h : s ≠ "") :
    toDisplayParts (some s) = [{ text := s, kind := "text" }] ∧
    toDisplayParts none = [] ∧
    toDisplayParts (some "") = [] := by
  refine ⟨?_, rfl, rfl⟩
  simp [toDisplayParts, h]

/-- Witness for C9 at the non-empty string "div". -/
theorem toDisplayParts_total_witness :
    toDisplayParts (some "div") = [{ text := "div", kind := "text" }] ∧
    toDisplayParts none = [] ∧
    toDisplayParts (some "") = [] :=
  toDisplayParts_total "div" (by decide)

/-- C10: a completion item with an absent kind is translated to the
unknown element kind by both the completion-entry translation and the
completion-entry-details translation. -/
theorem absent_kind_translates_to_unknown (item : CompletionItem)
    (h : item.kind = none) :
    (translateCompetionEntry item).kind = .unknown ∧
    (translateCompletionItemsToCompletionEntryDetails item).kind = .unknown := by
  constructor <;>
    simp [translateCompetionEntry,
      translateCompletionItemsToCompletionEntryDetails, h]

/-- Witness for C10 at a concrete kind-less item. -/
theorem absent_kind_translates_to_unknown_witness :
    (translateCompetionEntry ⟨"div", none, none, none⟩).kind = .unknown ∧
    (translateCompletionItemsToCompletionEntryDetails
      ⟨"div", none, none, none⟩).kind = .unknown :=
  absent_kind_translates_to_unknown ⟨"div", none, none, none⟩ rfl

/-- C4: formatting returns the empty edit sequence, with no delegated
formatter invocation, when the `format.enabled` configuration flag is
false, and likewise when the boundary-adjusted range is empty or
inverted. -/
theorem formatting_disabled_or_degenerate
    (format : TemplateContext → Range → HtmlFormatOptions → List TextEdit)
    (context : TemplateContext) (start «end» : Int)
    (settings : EditorSettings) :
    getFormattingEditsForRange false format context start «end» settings =
      ([], 0) ∧
    (adjustedEnd context «end» ≤ adjustedStart context start →
      getFormattingEditsForRange true format context start «end» settings =
        ([], 0)) := by
  refine ⟨rfl, fun h => ?_⟩
  unfold getFormattingEditsForRange
  simp [h]

/-- Witness for C4: formatting the empty range 0..0 of `wCtx` (text `<`
with no boundary whitespace) yields no edits, disabled or enabled. -/
theorem formatting_disabled_or_degenerate_witness :
    getFormattingEditsForRange false wFormat wCtx 0 0 wSettings = ([], 0) ∧
    getFormattingEditsForRange true wFormat wCtx 0 0 wSettings = ([], 0) :=
  ⟨(formatting_disabled_or_degenerate wFormat wCtx 0 0 wSettings).1,
   (formatting_disabled_or_degenerate wFormat wCtx 0 0 wSettings).2
     (by decide)⟩

/-- C5: when formatting happens, the delegated formatter receives the
range whose start was advanced by the length of the leading whitespace run
ending in a newline (when one is present; the run being the longest
whitespace prefix with a final newline) and whose end was pulled back by
the length of the trailing run of a newline followed by whitespace (when
one is present; the longest all-whitespace suffix starting with a
newline); with no such run the respective offset is unchanged; and for the
text `"\n<p>x</p>"` a start of 0 is shifted past the leading newline
to 1. -/
theorem formatting_boundary_trimming
    (format : TemplateContext → Range → HtmlFormatOptions → List TextEdit)
    (context : TemplateContext) (start «end» : Int)
    (settings : EditorSettings)
    (h : adjustedStart context start < adjustedEnd context «end») :
    getFormattingEditsForRange true format context start «end» settings =
      ((format context
          (toVsRange context (adjustedStart context start)
            (adjustedEnd context «end»))
          (htmlFormatOptions settings)).map (fun vsedit =>
            { span := toTsSpan context vsedit.range
              newText := vsedit.newText }), 1) ∧
    (∀ n, leadingWsNewlineLen context.text.toList = some n →
      adjustedStart context start = start + n ∧
      (∃ ws suf, context.text.toList = ws ++ '\n' :: suf ∧
        ws.all isJsWhitespace = true ∧ n = ws.length + 1) ∧
      (∀ ws suf, context.text.toList = ws ++ '\n' :: suf →
        ws.all isJsWhitespace = true → ws.length + 1 ≤ n)) ∧
    (leadingWsNewlineLen context.text.toList = none →
      adjustedStart context start = start ∧
      ∀ ws suf, context.text.toList = ws ++ '\n' :: suf →
        ws.all isJsWhitespace = true → False) ∧
    (∀ n, trailingNewlineWsLen context.text.toList = some n →
      adjustedEnd context «end» = «end» - n ∧
      (∃ pre ws, context.text.toList = pre ++ '\n' :: ws ∧
        ws.all isJsWhitespace = true ∧ n = ws.length + 1) ∧
      (∀ pre ws, context.text.toList = pre ++ '\n' :: ws →
        ws.all isJsWhitespace = true → ws.length + 1 ≤ n)) ∧
    (trailingNewlineWsLen context.text.toList = none →
      adjustedEnd context «end» = «end» ∧
      ∀ pre ws, context.text.toList = pre ++ '\n' :: ws →
        ws.all isJsWhitespace = true → False) ∧
    (context.text = "\n<p>x</p>" → adjustedStart context 0 = 1) := by
  refine ⟨?_, ?_, ?_, ?_, ?_, ?_⟩
  · unfold getFormattingEditsForRange
    simp [not_le.2 h]
  · intro n hn
    refine ⟨by unfold adjustedStart; rw [hn], ?_, ?_⟩
    · exact leadingWsNewlineLen_some _ n hn
    · exact leadingWsNewlineLen_max _ n hn
  · intro hn
    refine ⟨by unfold adjustedStart; rw [hn], ?_⟩
    exact leadingWsNewlineLen_none _ hn
  · intro n hn
    refine ⟨by unfold adjustedEnd; rw [hn], ?_, ?_⟩
    · exact trailingNewlineWsLen_some _ n hn
    · exact trailingNewlineWsLen_leftmost _ n hn
  · intro hn
    refine ⟨by unfold adjustedEnd; rw [hn], ?_⟩
    exact trailingNewlineWsLen_none _ hn
  · intro ht
    unfold adjustedStart
    rw [ht]
    decide

/-- Witness for C5: the context with text `"\n<p>x</p>"`, range 0..9 — the
effective start is 1 and the formatter is invoked on the adjusted
range. -/
theorem formatting_boundary_trimming_witness :
    adjustedStart wCtxNl 0 = 1 ∧
    getFormattingEditsForRange true wFormat wCtxNl 0 9 wSettings =
      ((wFormat wCtxNl
          (toVsRange wCtxNl (adjustedStart wCtxNl 0) (adjustedEnd wCtxNl 9))
          (htmlFormatOptions wSettings)).map (fun vsedit =>
            { span := toTsSpan wCtxNl vsedit.range
              newText := vsedit.newText }), 1) :=
  ⟨(formatting_boundary_trimming wFormat wCtxNl 0 9 wSettings
      (by decide)).2.2.2.2.2 rfl,
   (formatting_boundary_trimming wFormat wCtxNl 0 9 wSettings
      (by decide)).1⟩

/-- C6: a hover result carrying a range yields a quick-info span starting
at the range start's offset with length the difference of the two range
end offsets; a hover without a range yields a span at the query position's
offset with length exactly 1. -/
theorem hover_span_characterisation (hover : Hover)
    (position : LineAndCharacter) (context : TemplateContext) :
    (∀ r, hover.range = some r →
      (translateHover hover position context).textSpan =
        { start := context.toOffset r.start
          length := context.toOffset r.«end» - context.toOffset r.start }) ∧
    (hover.range = none →
      (translateHover hover position context).textSpan =
        { start := context.toOffset position, length := 1 }) := by
  obtain ⟨c, rng⟩ := hover
  constructor
  · intro r h
    cases h
    rfl
  · intro h
    cases h
    rfl

/-- Witness for C6: a hover with range (0,1)..(0,3) and one without, at
query position (0,2), in the context `wCtxNl` (offset = character). -/
theorem hover_span_characterisation_witness :
    (translateHover ⟨.plain "tag docs", some ⟨⟨0, 1⟩, ⟨0, 3⟩⟩⟩
        ⟨0, 2⟩ wCtxNl).textSpan =
      { start := wCtxNl.toOffset ⟨0, 1⟩
        length := wCtxNl.toOffset ⟨0, 3⟩ - wCtxNl.toOffset ⟨0, 1⟩ } ∧
    (translateHover ⟨.plain "tag docs", none⟩ ⟨0, 2⟩ wCtxNl).textSpan =
      { start := wCtxNl.toOffset ⟨0, 2⟩, length := 1 } :=
  ⟨(hover_span_characterisation ⟨.plain "tag docs", some ⟨⟨0, 1⟩, ⟨0, 3⟩⟩⟩
      ⟨0, 2⟩ wCtxNl).1 ⟨⟨0, 1⟩, ⟨0, 3⟩⟩ rfl,
   (hover_span_characterisation ⟨.plain "tag docs", none⟩
      ⟨0, 2⟩ wCtxNl).2 rfl⟩

/-- C7: requesting completion details for a name labelling no current
completion item never fails: the returned record carries the requested
name and the unknown element kind. -/
theorem missing_completion_detail
    (doComplete : TemplateContext → LineAndCharacter → CompletionList)
    (cache : CompletionsCache) (context : TemplateContext)
    (position : LineAndCharacter) (name : String) (calls : Nat)
    (h : ∀ item ∈
      (getCompletionItems doComplete cache context position calls).1.items,
      item.label ≠ name) :
    (getCompletionEntryDetails doComplete cache context position name
      calls).1.name = name ∧
    (getCompletionEntryDetails doComplete cache context position name
      calls).1.kind = .unknown := by
  have hf : (getCompletionItems doComplete cache context position
      calls).1.items.find? (fun x => x.label == name) = none := by
    rw [List.find?_eq_none]
    intro x hx
    simpa using h x hx
  simp [getCompletionEntryDetails, hf]

/-- Witness for C7: requesting details for the absent name "zz" from a
fresh cache over `wCtx`. -/
theorem missing_completion_detail_witness :
    (getCompletionEntryDetails wDoComplete CompletionsCache.empty wCtx
      ⟨0, 0⟩ "zz" 0).1.name = "zz" ∧
    (getCompletionEntryDetails wDoComplete CompletionsCache.empty wCtx
      ⟨0, 0⟩ "zz" 0).1.kind = .unknown :=
  missing_completion_detail wDoComplete CompletionsCache.empty wCtx
    ⟨0, 0⟩ "zz" 0 (by decide)

/-- C8: the virtual document's `lineCount` counts segments of a split on
the literal letter `n` plus one (equivalently, occurrences of `n` plus
two) — not newline segments, as `"\n\n"` shows — while the document's
position/offset conversions are exactly the context's `toPosition` and
`toOffset`, independent of `lineCount`. -/
theorem virtual_document_line_count (context : TemplateContext) :
    (createVirtualDocument context).lineCount =
      (jsSplitOnChar 'n' context.text.toList).length + 1 ∧
    (createVirtualDocument context).lineCount =
      context.text.toList.count 'n' + 2 ∧
    (createVirtualDocument context).positionAt = context.toPosition ∧
    (createVirtualDocument context).offsetAt = context.toOffset ∧
    (jsSplitOnChar 'n' "\n\n".toList).length = 1 ∧
    (jsSplitOnChar '\n' "\n\n".toList).length = 3 := by
  refine ⟨rfl, ?_, rfl, rfl, by decide, by decide⟩
  show (jsSplitOnChar 'n' context.text.toList).length + 1 = _
  rw [jsSplitOnChar_length]

end HtmlTemplate
